import Mathlib

/-!
Verification of the cldash transactional batch-execution core
(`lib/transaction.ts`, `lib/retry.ts`, `lib/parallel.ts`, `lib/exec.ts`).

The TypeScript code is shallowly embedded:

* A thrown exception is a value of an error type `E`; a fallible call is an
  `Except E α` value.  A step's `execute()` / `rollback()` and the retried
  operation are modelled by the outcome they produce when awaited (for retry,
  the outcome of the k-th call, since the operation is invoked repeatedly).
* Observable side effects (which actions, compensations and callbacks were
  invoked, and in which order) are recorded in an explicit event log, so the
  ordering claims can be stated over the log.
* Wall-clock quantities (`Date.now()` durations, backoff delays, jitter) are
  not modelled; the corresponding fields are omitted.  Sleeping is recorded
  as an event so that "callback before sleep" ordering is still visible.
* The cooperatively scheduled workers of `parallel` are modelled as a small-
  step state machine; the JavaScript event loop's choice of which worker
  makes progress next becomes an explicit schedule (a list of worker ids).
  All synchronous code between two `await`s of the source runs as a single
  atomic step, exactly as in the single-threaded event loop.
-/

deriving instance DecidableEq for Except

namespace Cldash

/-- JavaScript `x || d` for an optional numeric field: `undefined` and the
falsy value `0` both fall back to the default. -/
def jsOrNat (o : Option Nat) (d : Nat) : Nat :=
  match o with
  | some a => if a = 0 then d else a
  | none => d

/-- JavaScript `x || d` for an optional integer (`error.code || 1`,
`code || 0`): `undefined`/`null` and the falsy value `0` fall back. -/
def jsOrInt (o : Option Int) (d : Int) : Int :=
  match o with
  | some a => if a = 0 then d else a
  | none => d

/-- JavaScript `x || d` for an optional string: `undefined` and the empty
string both fall back to the default. -/
def jsOrStr (o : Option String) (d : String) : String :=
  match o with
  | some s => if s = "" then d else s
  | none => d

/-! ### transaction.ts -/

/-- Embedding of `TransactionStep`: `execute` is the outcome of awaiting
`step.execute()` (value or thrown error), `rollback` the outcome of awaiting
`step.rollback()`.  The transaction calls each at most once, so a single
outcome per step is a faithful model. -/
structure TransactionStep (E T : Type) where
  execute : Except E T
  rollback : Except E Unit
  description : Option String := none

/-- Embedding of `TransactionOptions`.  The callbacks may themselves throw
(they are plain JavaScript functions), hence the `Except` result.
`onStepComplete` receives `(step, total, description)`, `onRollback`
receives `(step, description)`. -/
structure TransactionOptions (E : Type) where
  onStepComplete : Option (Nat → Nat → Option String → Except E Unit) := none
  onRollback : Option (Nat → Option String → Except E Unit) := none

/-- Observable events of a transaction run, in program order. -/
inductive TxEvent where
  /-- step `i`'s `execute()` returned normally -/
  | executed (i : Nat)
  /-- the `onStepComplete` callback was invoked after step `i` -/
  | stepCallback (i : Nat)
  /-- step `i`'s `rollback()` was invoked (a compensation attempt) -/
  | compensationCalled (i : Nat)
  /-- the `onRollback` callback was invoked with step index `i` -/
  | rollbackCallback (i : Nat)
  /-- the `catch` branch of the rollback loop ran for step `i`
      (`console.error(...)`) -/
  | rollbackErrorLogged (i : Nat)
  deriving DecidableEq

/-- Index of a compensation-attempt event. -/
def TxEvent.compIdx : TxEvent → Option Nat
  | .compensationCalled i => some i
  | _ => none

/-- Index of an `onRollback`-callback event. -/
def TxEvent.rbCbIdx : TxEvent → Option Nat
  | .rollbackCallback i => some i
  | _ => none

/-- One iteration of the rollback loop body of `rollbackSteps`:
`try { await step.rollback(); if (onRollback) onRollback(i, d); }
catch (e) { console.error(...) }`.  The events it emits, in order. -/
def rollbackOne {E T : Type} (onRollback : Option (Nat → Option String → Except E Unit))
    (i : Nat) (s : TransactionStep E T) : List TxEvent :=
  match s.rollback with
  | .ok _ =>
    TxEvent.compensationCalled i ::
      (match onRollback with
       | none => []
       | some f =>
         match f i s.description with
         | .ok _ => [.rollbackCallback i]
         | .error _ => [.rollbackCallback i, .rollbackErrorLogged i])
  | .error _ => [.compensationCalled i, .rollbackErrorLogged i]

/-- The rollback loop over an index-annotated list of steps (highest index
first, matching `for (let i = steps.length - 1; i >= 0; i--)`). -/
def rollbackSweep {E T : Type} (onRollback : Option (Nat → Option String → Except E Unit)) :
    List (Nat × TransactionStep E T) → List TxEvent
  | [] => []
  | (i, s) :: rest => rollbackOne onRollback i s ++ rollbackSweep onRollback rest

/-- Embedding of `rollbackSteps(steps, onRollback)`: iterate the given steps
from the last index down to 0, attempting each compensation; a compensation
(or callback) failure is logged and the loop continues.  The function itself
never throws — every fallible call in its body is inside the `try`. -/
def rollbackSteps {E T : Type} (steps : List (TransactionStep E T))
    (onRollback : Option (Nat → Option String → Except E Unit)) : List TxEvent :=
  rollbackSweep onRollback steps.enum.reverse

/-- Embedding of `TransactionResult` (the wall-clock `duration` field is not
modelled). -/
structure TransactionResult (E T : Type) where
  success : Bool
  results : List T
  completedSteps : Nat
  rolledBack : Bool
  error : Option E := none
  deriving DecidableEq

/-- The main loop of `transaction`: `remaining` is the tail of `steps` not
yet executed, `i` the current loop index, `results`/`completed`/`log` the
accumulated state.  Each `return {...}` of the source is an `Except.ok`;
the result type leaves room for an uncaught exception, and every branch is
shown (by the theorems below) to catch it.  On a step failure the source
calls `rollbackSteps(steps.slice(0, completedSteps), onRollback)`, i.e.
`steps.take completed` here.  A throwing `onStepComplete` is caught by the
same inner `catch` as a failing step, after `completedSteps` was already
incremented. -/
def transactionGo {E T : Type} (steps : List (TransactionStep E T))
    (opts : TransactionOptions E) :
    List (TransactionStep E T) → Nat → List T → Nat → List TxEvent →
    Except E (TransactionResult E T × List TxEvent)
  | [], _, results, completed, log =>
    .ok (⟨true, results, completed, false, none⟩, log)
  | s :: rest, i, results, completed, log =>
    match s.execute with
    | .ok v =>
      match opts.onStepComplete with
      | none =>
        transactionGo steps opts rest (i + 1) (results ++ [v]) (completed + 1)
          (log ++ [.executed i])
      | some f =>
        match f (i + 1) steps.length s.description with
        | .ok _ =>
          transactionGo steps opts rest (i + 1) (results ++ [v]) (completed + 1)
            (log ++ [.executed i, .stepCallback i])
        | .error e =>
          .ok (⟨false, results ++ [v], completed + 1, true, some e⟩,
            (log ++ [.executed i, .stepCallback i]) ++
              rollbackSteps (steps.take (completed + 1)) opts.onRollback)
    | .error e =>
      .ok (⟨false, results, completed, true, some e⟩,
        log ++ rollbackSteps (steps.take completed) opts.onRollback)

/-- Embedding of `transaction(steps, options)`: execute the steps in order;
on the first failure roll back the completed prefix in reverse order and
report the failure in the returned result. -/
def transaction {E T : Type} (steps : List (TransactionStep E T))
    (opts : TransactionOptions E) : Except E (TransactionResult E T × List TxEvent) :=
  transactionGo steps opts steps 0 [] 0 []

/-- Log component of a transaction run (empty if the run threw). -/
def txLog {E T : Type} : Except E (TransactionResult E T × List TxEvent) → List TxEvent
  | .ok (_, log) => log
  | .error _ => []

/-! ### retry.ts -/

/-- Observable events of a retry run. -/
inductive REvent where
  /-- the wrapped operation was invoked for attempt `k` -/
  | opCalled (k : Nat)
  /-- the `onRetry` callback was invoked with attempt number `k` -/
  | onRetryCalled (k : Nat)
  /-- the backoff sleep after attempt `k` completed -/
  | slept (k : Nat)
  deriving DecidableEq

/-- Attempt number of an operation-invocation event. -/
def REvent.opIdx : REvent → Option Nat
  | .opCalled k => some k
  | _ => none

/-- Attempt number of an `onRetry`-callback event. -/
def REvent.cbIdx : REvent → Option Nat
  | .onRetryCalled k => some k
  | _ => none

/-- Attempt number of a sleep event. -/
def REvent.sleptIdx : REvent → Option Nat
  | .slept k => some k
  | _ => none

/-- Embedding of `RetryError` (the `message` string and the wall-clock
`totalDuration` are not modelled).  `originalError` is an `Option` because
the source reads `lastError!` — with `attempts = 0` configured, the loop
never runs and the non-null assertion produces `undefined`. -/
structure RetryError (E : Type) where
  originalError : Option E
  attempts : Nat
  deriving DecidableEq

/-- The `for (let attempt = 1; attempt <= attempts; attempt++)` loop of
`retry`.  The remaining attempt numbers are passed as a list; `op k` is the
outcome of the k-th invocation of the operation.  After a failed attempt
with `attempt < attempts` the source computes the backoff delay, invokes
`onRetry` (when configured) and sleeps; the corresponding events are
emitted in that order.  When the list is exhausted the source throws a
`RetryError` carrying the last error and the configured attempt count. -/
def retryLoop {E T : Type} (op : Nat → Except E T) (attempts : Nat) (hasRetryCb : Bool) :
    List Nat → Option E → List REvent → Except (RetryError E) T × List REvent
  | [], lastError, log => (.error ⟨lastError, attempts⟩, log)
  | a :: rest, _, log =>
    match op a with
    | .ok v => (.ok v, log ++ [.opCalled a])
    | .error e =>
      if a < attempts then
        retryLoop op attempts hasRetryCb rest (some e)
          (log ++ [.opCalled a] ++
            (if hasRetryCb then [.onRetryCalled a] else []) ++ [.slept a])
      else
        retryLoop op attempts hasRetryCb rest (some e) (log ++ [.opCalled a])

/-- Embedding of `retry(operation, options)`.  `attemptsOpt` is the
`attempts` option; the destructuring default `attempts = 3` fires only when
the option is absent (`Option.getD`, not JavaScript `||`).  The result is
the returned value or the thrown `RetryError`, plus the event log. -/
def retry {E T : Type} (op : Nat → Except E T) (attemptsOpt : Option Nat)
    (hasRetryCb : Bool) : Except (RetryError E) T × List REvent :=
  retryLoop op (attemptsOpt.getD 3) hasRetryCb
    (List.range' 1 (attemptsOpt.getD 3)) none []

/-- Embedding of `RetryResult` (wall-clock `totalDuration` not modelled). -/
structure RetryResult (E T : Type) where
  success : Bool
  result : Option T := none
  error : Option (RetryError E) := none
  attempts : Nat

/-- Embedding of `retryWithResult(operation, options)`: wraps `retry` in a
`try`/`catch` and reports `attempts: options.attempts || 3` — the JavaScript
`||` of the configured option, not the number of attempts actually made. -/
def retryWithResult {E T : Type} (op : Nat → Except E T) (attemptsOpt : Option Nat)
    (hasRetryCb : Bool) : RetryResult E T × List REvent :=
  match retry op attemptsOpt hasRetryCb with
  | (.ok v, log) => (⟨true, some v, none, jsOrNat attemptsOpt 3⟩, log)
  | (.error re, log) => (⟨false, none, some re, jsOrNat attemptsOpt 3⟩, log)

/-- Expected event trace of `m` consecutive failed-and-retried attempts
starting at attempt number `s`: each attempt calls the operation, then (when
configured) fires the `onRetry` callback, then sleeps — the callback fires
immediately before each sleep. -/
def exhaustTrace (hasRetryCb : Bool) : Nat → Nat → List REvent
  | _, 0 => []
  | s, m + 1 =>
    ([REvent.opCalled s] ++ (if hasRetryCb then [REvent.onRetryCalled s] else []) ++
      [REvent.slept s]) ++ exhaustTrace hasRetryCb (s + 1) m

/-! ### exec.ts -/

/-- Embedding of `ExecResult` (wall-clock `duration` not modelled). -/
structure ExecResult where
  stdout : String
  stderr : String
  exitCode : Int
  success : Bool
  command : String
  dryRun : Bool := false

/-- Settlement of the promise returned by `promisify(exec)(command, opts)`:
it either resolves with the captured output, or rejects with an error object
carrying optional captured output, a message, and an optional numeric exit
code.  When the configured timeout elapses first, Node kills the child and
rejects with `killed: true`, `signal: 'SIGTERM'` and a `null`/absent
`error.code` — modelled as `rejected _ _ _ none`. -/
inductive ExecAsyncOutcome where
  | resolved (stdout stderr : String)
  | rejected (stdout stderr : Option String) (message : String) (code : Option Int)

/-- Embedding of the buffered path of `exec` (after the dry-run check and the
streaming dispatch): the `try` branch builds a success result with exit code
0, the `catch` branch builds a failure result with
`exitCode: error.code || 1` and `stderr: error.stderr?.trim() ||
error.message || ''`. -/
def execBuffered (command : String) (outcome : ExecAsyncOutcome) : ExecResult :=
  match outcome with
  | .resolved out err =>
    { stdout := out.trim, stderr := err.trim, exitCode := 0, success := true
      command := command }
  | .rejected out err msg code =>
    { stdout := jsOrStr (out.map String.trim) ""
      stderr := jsOrStr (err.map String.trim) (jsOrStr (some msg) "")
      exitCode := jsOrInt code 1, success := false, command := command }

/-- Embedding of the dry-run branch of `exec`: returns immediately without
spawning anything. -/
def execDryRun (command : String) : ExecResult :=
  { stdout := "", stderr := "", exitCode := 0, success := true
    command := command, dryRun := true }

/-- Embedding of the `close`-event handler of `execWithStreaming`:
`child.on('close', (code) => ...)` receives `code = null` when the child was
killed by a signal — in particular after the timeout handler ran
`child.kill()`.  The source computes `exitCode = code || 0` and
`success: exitCode === 0`. -/
def execStreamingClose (command : String) (stdoutAcc stderrAcc : String)
    (code : Option Int) : ExecResult :=
  let exitCode := jsOrInt code 0
  { stdout := stdoutAcc.trim, stderr := stderrAcc.trim, exitCode := exitCode
    success := exitCode == 0, command := command }

/-- Embedding of the `error`-event handler of `execWithStreaming` (spawn
failure): resolves with `exitCode: 1`, `success: false`. -/
def execStreamingError (command : String) (stdoutAcc : String)
    (message : String) : ExecResult :=
  { stdout := stdoutAcc.trim, stderr := message, exitCode := 1
    success := false, command := command }

/-! ### parallel.ts

The `worker` coroutines of `parallel` are modelled as a state machine.  Each
task is modelled by the outcome (`Except E T`) it eventually produces when
awaited; the event loop's nondeterminism — which worker's pending `await`
resolves next — is an explicit schedule.  One model step is one maximal
synchronous stretch of one worker (the source has exactly one `await` per
loop iteration, on `tasks[currentIndex]()`; the claim `index++`, the result
write, the counter updates and the loop test are synchronous and therefore
atomic in the single-threaded event loop). -/

/-- Status of one worker coroutine. -/
inductive WStatus (E : Type) where
  /-- at the `while (index < tasks.length)` loop head, about to claim -/
  | claiming
  /-- awaiting `tasks[i]()` for its claimed index `i` -/
  | running (i : Nat)
  /-- the worker's `while` loop exited; its promise resolved -/
  | done
  /-- the worker's promise rejected: with `stopOnError` a task error is
      rethrown out of `executeTask` and ends the worker -/
  | dead (e : E)
  deriving DecidableEq

/-- True for a worker that has started a task and not yet finished it. -/
def WStatus.isRunning {E : Type} : WStatus E → Bool
  | .running _ => true
  | _ => false

/-- True for a worker whose loop exited normally. -/
def WStatus.isDone {E : Type} : WStatus E → Bool
  | .done => true
  | _ => false

/-- Observable start/finish events of tasks. -/
inductive PEvent where
  /-- the task function at input position `i` was invoked -/
  | started (i : Nat)
  /-- the task at position `i` settled (resolved or rejected) and its
      result slot was written -/
  | finished (i : Nat)
  deriving DecidableEq

/-- State of one `parallel` invocation: the shared cursor `index`, the
pre-sized result array (`new Array(tasks.length)`, holes as `none`), the
`successful`/`failed`/`completed` counters, the worker statuses, and the
event log. -/
structure PState (E T : Type) where
  index : Nat
  results : List (Option (Except E T))
  successful : Nat
  failed : Nat
  completed : Nat
  workers : List (WStatus E)
  log : List PEvent
  deriving DecidableEq

/-- Initial state: `Math.min(concurrency, tasks.length)` workers are
spawned, all at their loop head. -/
def pinit {E T : Type} (tasks : List (Except E T)) (concurrency : Nat) : PState E T :=
  { index := 0, results := List.replicate tasks.length none
    successful := 0, failed := 0, completed := 0
    workers := List.replicate (min concurrency tasks.length) .claiming
    log := [] }

/-- One scheduler step: worker `w` makes progress.

* a `claiming` worker checks `index < tasks.length`; if so it atomically
  runs `const currentIndex = index++` and calls `tasks[currentIndex]()`
  (the task is started); otherwise its loop exits;
* a `running` worker's awaited task settles: `executeTask` writes
  `results[taskIndex]`, bumps `successful` or `failed`, and in `finally`
  bumps `completed` (and would invoke `onProgress`, which is not modelled);
  on an error with `stopOnError` the error is rethrown and the worker dies,
  otherwise the worker returns to its loop head;
* a `done`/`dead` worker, or an out-of-range id, makes no progress. -/
def pstep {E T : Type} (tasks : List (Except E T)) (stopOnError : Bool)
    (s : PState E T) (w : Nat) : PState E T :=
  match s.workers[w]? with
  | none => s
  | some .claiming =>
    if s.index < tasks.length then
      { s with index := s.index + 1
               workers := s.workers.set w (.running s.index)
               log := s.log ++ [.started s.index] }
    else
      { s with workers := s.workers.set w .done }
  | some (.running i) =>
    match tasks[i]? with
    | none => s
    | some (.ok v) =>
      { s with results := s.results.set i (some (.ok v))
               successful := s.successful + 1
               completed := s.completed + 1
               workers := s.workers.set w .claiming
               log := s.log ++ [.finished i] }
    | some (.error e) =>
      { s with results := s.results.set i (some (.error e))
               failed := s.failed + 1
               completed := s.completed + 1
               workers := s.workers.set w (if stopOnError then .dead e else .claiming)
               log := s.log ++ [.finished i] }
  | some .done => s
  | some (.dead _) => s

/-- Run of `parallel`'s workers under an explicit schedule (the list of
worker ids chosen by the event loop). -/
def prun {E T : Type} (tasks : List (Except E T)) (stopOnError : Bool)
    (concurrency : Nat) (schedule : List Nat) : PState E T :=
  schedule.foldl (pstep tasks stopOnError) (pinit tasks concurrency)

/-- Error of the first rejected worker promise, if any. -/
def firstDead {E : Type} : List (WStatus E) → Option E
  | [] => none
  | .dead e :: _ => some e
  | _ :: rest => firstDead rest

/-- Settlement of `Promise.all(workers)`: rejects with a worker's error as
soon as some worker rejected, resolves once all workers resolved, and is
otherwise still pending (`none`). -/
def promiseAll {E T : Type} (s : PState E T) : Option (Except E Unit) :=
  match firstDead s.workers with
  | some e => some (.error e)
  | none => if s.workers.all WStatus.isDone then some (.ok ()) else none

/-- Embedding of `ParallelResult` (wall-clock `duration` not modelled). -/
structure ParallelResult (E T : Type) where
  results : List (Option (Except E T))
  successful : Nat
  failed : Nat
  deriving DecidableEq

/-- The `return { results, successful, failed, duration }` of `parallel`. -/
def snapshot {E T : Type} (s : PState E T) : ParallelResult E T :=
  ⟨s.results, s.successful, s.failed⟩

/-- What `parallel` hands its caller once `await Promise.all(workers)`
settles in state `s`: the source wraps the await in
`try { ... } catch (error) { }`, so a rejection is swallowed and both
branches fall through to the same normal `return` — the caller never sees a
thrown error, only the `ParallelResult` snapshot.  `none` means the await is
still pending. -/
def parallelSettle {E T : Type} (s : PState E T) :
    Option (Except E (ParallelResult E T)) :=
  match promiseAll s with
  | none => none
  | some (.ok _) => some (.ok (snapshot s))
  | some (.error _) => some (.ok (snapshot s))

/-- Number of tasks currently in flight: started and not yet finished, i.e.
workers in the `running` state. -/
def runningCount {E T : Type} (s : PState E T) : Nat :=
  (s.workers.filter WStatus.isRunning).length

/-- Number of `started` events in a log. -/
def startedCount (log : List PEvent) : Nat :=
  log.countP fun ev => match ev with | .started _ => true | _ => false

/-- Number of `finished` events in a log. -/
def finishedCount (log : List PEvent) : Nat :=
  log.countP fun ev => match ev with | .finished _ => true | _ => false

/-- True for a result slot holding a successful value. -/
def isOkSlot {E T : Type} : Option (Except E T) → Bool
  | some (.ok _) => true
  | _ => false

/-- True for a result slot holding a caught error. -/
def isErrSlot {E T : Type} : Option (Except E T) → Bool
  | some (.error _) => true
  | _ => false

/-- Inductive invariant of the parallel executor's state: the result array
keeps its `new Array(tasks.length)` size; the cursor never passes the end;
a filled slot holds exactly its own task's outcome; slots at or beyond the
cursor are still holes; a running worker holds a claimed, not yet written
index, and no two workers hold the same one; a worker only finishes its
loop once the cursor is exhausted; every claimed index is either written or
held by a running worker; and the `successful`/`failed` counters count the
filled ok/error slots. -/
structure PInv {E T : Type} (tasks : List (Except E T)) (s : PState E T) :
    Prop where
  rlen : s.results.length = tasks.length
  idx_le : s.index ≤ tasks.length
  filled : ∀ (i : Nat) (x : Except E T),
    s.results[i]? = some (some x) → tasks[i]? = some x
  unclaimed : ∀ i : Nat, s.index ≤ i → i < tasks.length →
    s.results[i]? = some none
  running_lt : ∀ w i : Nat, s.workers[w]? = some (.running i) → i < s.index
  running_none : ∀ w i : Nat, s.workers[w]? = some (.running i) →
    s.results[i]? = some none
  running_uniq : ∀ w w' i : Nat, s.workers[w]? = some (.running i) →
    s.workers[w']? = some (.running i) → w = w'
  done_full : ∀ w : Nat, s.workers[w]? = some WStatus.done →
    s.index = tasks.length
  claimed : ∀ i : Nat, i < s.index →
    (∃ x, s.results[i]? = some (some x)) ∨
      ∃ w : Nat, s.workers[w]? = some (WStatus.running i)
  succ_count : s.successful = s.results.countP isOkSlot
  fail_count : s.failed = s.results.countP isErrSlot

/-! ## Lemmas about the transaction coordinator -/

/-- Each iteration of the rollback loop attempts exactly one compensation:
that of its step index. -/
theorem rollbackOne_compIdx {E T : Type}
    (cb : Option (Nat → Option String → Except E Unit)) (i : Nat)
    (s : TransactionStep E T) :
    (rollbackOne cb i s).filterMap TxEvent.compIdx = [i] := by
  rcases hr : s.rollback with e | u
  · simp [rollbackOne, hr, TxEvent.compIdx]
  · rcases cb with _ | f
    · simp [rollbackOne, hr, TxEvent.compIdx]
    · rcases hf : f i s.description with e | u <;>
        simp [rollbackOne, hr, hf, TxEvent.compIdx]

/-- The rollback sweep attempts the compensations of exactly the steps it is
given, in the order given. -/
theorem rollbackSweep_compIdx {E T : Type}
    (cb : Option (Nat → Option String → Except E Unit)) :
    ∀ l : List (Nat × TransactionStep E T),
      (rollbackSweep cb l).filterMap TxEvent.compIdx = l.map Prod.fst
  | [] => rfl
  | (i, s) :: rest => by
    simp [rollbackSweep, List.filterMap_append, rollbackOne_compIdx,
      rollbackSweep_compIdx cb rest]

/-- Every compensation of the given steps is attempted, in strictly
decreasing index order (last step first), regardless of whether any of the
compensations or callbacks throw. -/
theorem rollbackSteps_compIdx {E T : Type} (steps : List (TransactionStep E T))
    (cb : Option (Nat → Option String → Except E Unit)) :
    (rollbackSteps steps cb).filterMap TxEvent.compIdx =
      (List.range steps.length).reverse := by
  rw [rollbackSteps, rollbackSweep_compIdx, List.map_reverse, List.enum_map_fst]

/-- With a non-throwing `onRollback` callback, one loop iteration fires the
callback exactly when the compensation succeeded. -/
theorem rollbackOne_rbCbIdx {E T : Type} (f : Nat → Option String → Except E Unit)
    (hf : ∀ a d, f a d = Except.ok ()) (i : Nat) (s : TransactionStep E T) :
    (rollbackOne (some f) i s).filterMap TxEvent.rbCbIdx =
      if s.rollback.isOk then [i] else [] := by
  rcases hr : s.rollback with _ | _ <;>
    simp [rollbackOne, hr, hf, TxEvent.rbCbIdx, Except.isOk, Except.toBool]

/-- With a non-throwing `onRollback` callback, the sweep fires the callback
exactly for the steps whose compensation succeeded, in sweep order. -/
theorem rollbackSweep_rbCbIdx {E T : Type} (f : Nat → Option String → Except E Unit)
    (hf : ∀ a d, f a d = Except.ok ()) :
    ∀ l : List (Nat × TransactionStep E T),
      (rollbackSweep (some f) l).filterMap TxEvent.rbCbIdx =
        (l.filter fun p => p.2.rollback.isOk).map Prod.fst
  | [] => rfl
  | (i, s) :: rest => by
    by_cases h : s.rollback.isOk <;>
      simp [rollbackSweep, List.filterMap_append, rollbackOne_rbCbIdx f hf, h,
        rollbackSweep_rbCbIdx f hf rest]

/-- Characterization of a failing transaction run, for the main loop: if the
first `k` remaining steps' actions succeed, the `(k+1)`-st throws `e`, and
the `onStepComplete` callback never throws, the loop returns a failure
result with `k` more completed steps and appends the rollback sweep of the
first `completed + k` steps to the log; the loop itself contributes no
compensation or rollback-callback events. -/
theorem transactionGo_fail {E T : Type} (steps : List (TransactionStep E T))
    (opts : TransactionOptions E)
    (hcb : ∀ f, opts.onStepComplete = some f → ∀ a b d, f a b d = Except.ok ()) :
    ∀ (rem : List (TransactionStep E T)) (k : Nat) (i completed : Nat)
      (results : List T) (log : List TxEvent) (sk : TransactionStep E T) (e : E),
      rem.get? k = some sk → sk.execute = .error e →
      (∀ j s, j < k → rem.get? j = some s → s.execute.isOk) →
      ∃ vs pre,
        transactionGo steps opts rem i results completed log =
          .ok (⟨false, results ++ vs, completed + k, true, some e⟩,
            (log ++ pre) ++
              rollbackSteps (steps.take (completed + k)) opts.onRollback) ∧
        pre.filterMap TxEvent.compIdx = [] ∧
        pre.filterMap TxEvent.rbCbIdx = []
  | [], k, _, _, _, _, _, _, hk, _, _ => by simp at hk
  | s :: rest, 0, i, completed, results, log, sk, e, hk, hfail, _ => by
    rw [List.get?_cons_zero, Option.some_inj] at hk
    subst hk
    refine ⟨[], [], ?_, rfl, rfl⟩
    simp [transactionGo, hfail]
  | s :: rest, k + 1, i, completed, results, log, sk, e, hk, hfail, hok => by
    have hs : s.execute.isOk := hok 0 s (Nat.zero_lt_succ k) List.get?_cons_zero
    rcases hv : s.execute with _ | v
    · rw [hv] at hs; simp [Except.isOk, Except.toBool] at hs
    have hok' : ∀ j t, j < k → rest.get? j = some t → t.execute.isOk := by
      intro j t hj ht
      exact hok (j + 1) t (Nat.succ_lt_succ hj) (by simpa using ht)
    have hk' : rest.get? k = some sk := by simpa using hk
    rcases hco : opts.onStepComplete with _ | f
    · obtain ⟨vs, pre, heq, h1, h2⟩ :=
        transactionGo_fail steps opts hcb rest k (i + 1) (completed + 1)
          (results ++ [v]) (log ++ [.executed i]) sk e hk' hfail hok'
      refine ⟨v :: vs, TxEvent.executed i :: pre, ?_, ?_, ?_⟩
      · rw [show transactionGo steps opts (s :: rest) i results completed log =
            transactionGo steps opts rest (i + 1) (results ++ [v]) (completed + 1)
              (log ++ [.executed i]) by simp [transactionGo, hv, hco]]
        rw [show completed + (k + 1) = completed + 1 + k from by omega, heq]
        simp [List.append_assoc]
      · simpa [TxEvent.compIdx] using h1
      · simpa [TxEvent.rbCbIdx] using h2
    · have hf := hcb f hco
      obtain ⟨vs, pre, heq, h1, h2⟩ :=
        transactionGo_fail steps opts hcb rest k (i + 1) (completed + 1)
          (results ++ [v]) (log ++ [.executed i, .stepCallback i]) sk e hk' hfail hok'
      refine ⟨v :: vs, TxEvent.executed i :: TxEvent.stepCallback i :: pre, ?_, ?_, ?_⟩
      · rw [show transactionGo steps opts (s :: rest) i results completed log =
            transactionGo steps opts rest (i + 1) (results ++ [v]) (completed + 1)
              (log ++ [.executed i, .stepCallback i]) by
              simp [transactionGo, hv, hco, hf]]
        rw [show completed + (k + 1) = completed + 1 + k from by omega, heq]
        simp [List.append_assoc]
      · simpa [TxEvent.compIdx] using h1
      · simpa [TxEvent.rbCbIdx] using h2

/-- The main loop of `transaction` returns a result in every case — no
exception escapes it. -/
theorem transactionGo_total {E T : Type} (steps : List (TransactionStep E T))
    (opts : TransactionOptions E) :
    ∀ (rem : List (TransactionStep E T)) (i completed : Nat)
      (results : List T) (log : List TxEvent),
      ∃ out, transactionGo steps opts rem i results completed log = .ok out
  | [], _, _, _, _ => ⟨_, rfl⟩
  | s :: rest, i, completed, results, log => by
    rcases hv : s.execute with e | v
    · exact ⟨(⟨false, results, completed, true, some e⟩,
        log ++ rollbackSteps (steps.take completed) opts.onRollback),
        by simp [transactionGo, hv]⟩
    · rcases hco : opts.onStepComplete with _ | f
      · obtain ⟨out, hout⟩ :=
          transactionGo_total steps opts rest (i + 1) (completed + 1)
            (results ++ [v]) (log ++ [.executed i])
        exact ⟨out, by simp [transactionGo, hv, hco, hout]⟩
      · rcases hf : f (i + 1) steps.length s.description with e | u
        · exact ⟨(⟨false, results ++ [v], completed + 1, true, some e⟩,
            (log ++ [.executed i, .stepCallback i]) ++
              rollbackSteps (steps.take (completed + 1)) opts.onRollback),
            by simp [transactionGo, hv, hco, hf]⟩
        · obtain ⟨out, hout⟩ :=
            transactionGo_total steps opts rest (i + 1) (completed + 1)
              (results ++ [v]) (log ++ [.executed i, .stepCallback i])
          exact ⟨out, by simp [transactionGo, hv, hco, hf, hout]⟩

/-- C1: for a transaction whose run has the actions of steps `1..k-1`
(1-indexed) succeed and the action of step `k` throw `e` — so the
`onStepComplete` callback, when configured, returns normally, otherwise
step `k` would never have run — the returned `TransactionResult` has
`success = false`, exactly `k - 1` completed steps, `rolledBack = true` and
the triggering error attached, and the compensations invoked are exactly
those of steps `k-1` down to `1` (0-indexed `k-2` down to `0`), in that
exact reverse order. -/
theorem transaction_all_or_nothing {E T : Type}
    (steps : List (TransactionStep E T)) (opts : TransactionOptions E)
    (k : Nat) (sk : TransactionStep E T) (e : E)
    (hcb : ∀ f, opts.onStepComplete = some f → ∀ a b d, f a b d = Except.ok ())
    (hk : 1 ≤ k)
    (hsk : steps.get? (k - 1) = some sk) (hfail : sk.execute = .error e)
    (hok : ∀ j s, j < k - 1 → steps.get? j = some s → s.execute.isOk) :
    ∃ r log, transaction steps opts = .ok (r, log) ∧
      r.success = false ∧ r.completedSteps = k - 1 ∧ r.rolledBack = true ∧
      r.error = some e ∧
      log.filterMap TxEvent.compIdx = (List.range (k - 1)).reverse := by
  obtain ⟨vs, pre, heq, h1, h2⟩ :=
    transactionGo_fail steps opts hcb steps (k - 1) 0 0 [] [] sk e hsk hfail hok
  simp only [List.nil_append, Nat.zero_add] at heq
  have hlen : k - 1 ≤ steps.length := Nat.le_of_lt (List.get?_eq_some.mp hsk).1
  refine ⟨_, _, heq, rfl, rfl, rfl, rfl, ?_⟩
  rw [List.filterMap_append, h1, rollbackSteps_compIdx, List.length_take,
    Nat.min_eq_left hlen, List.nil_append]

/-- Witness: a two-step transaction whose second step fails; the first
step's compensation is the only one invoked. -/
theorem transaction_all_or_nothing_witness :
    ∃ r log,
      transaction [(⟨.ok 10, .ok (), none⟩ : TransactionStep Nat Nat),
          ⟨.error 5, .ok (), none⟩] ⟨none, none⟩ = .ok (r, log) ∧
      r.success = false ∧ r.completedSteps = 1 ∧ r.rolledBack = true ∧
      r.error = some 5 ∧
      log.filterMap TxEvent.compIdx = (List.range 1).reverse :=
  transaction_all_or_nothing _ _ 2 _ 5 (fun _ h => nomatch h) (by omega) rfl rfl
    (by
      intro j s hj hs
      have hj0 : j = 0 := by omega
      subst hj0
      simp only [List.get?_cons_zero, Option.some_inj] at hs
      subst hs
      rfl)

/-- C4 counterexample: a transaction with two completed steps whose rollback
is triggered; the compensation of step 0 throws.  Both compensations are
attempted (`compIdx` log `[1, 0]`), but the rollback callback fires only for
the successful one (`rbCbIdx` log `[1]`), not once per compensation
attempted as the claim states. -/
theorem rollback_callback_skipped_on_compensation_failure :
    (txLog (transaction
        [(⟨.ok 10, .error 9, none⟩ : TransactionStep Nat Nat),
         ⟨.ok 20, .ok (), none⟩, ⟨.error 5, .ok (), none⟩]
        ⟨none, some fun _ _ => .ok ()⟩)).filterMap TxEvent.compIdx = [1, 0] ∧
    (txLog (transaction
        [(⟨.ok 10, .error 9, none⟩ : TransactionStep Nat Nat),
         ⟨.ok 20, .ok (), none⟩, ⟨.error 5, .ok (), none⟩]
        ⟨none, some fun _ _ => .ok ()⟩)).filterMap TxEvent.rbCbIdx = [1] ∧
    ([1] : List Nat) ≠ [1, 0] :=
  ⟨by decide, by decide, by decide⟩

/-- C4 (amended): during the rollback sweep, with a non-throwing rollback
callback configured, every compensation is attempted in strict reverse step
order, and the callback is invoked exactly once per compensation that
completes successfully — in that same reverse order — but is skipped for a
compensation that throws. -/
theorem rollback_callback_per_successful_compensation {E T : Type}
    (steps : List (TransactionStep E T)) (f : Nat → Option String → Except E Unit)
    (hf : ∀ a d, f a d = Except.ok ()) :
    (rollbackSteps steps (some f)).filterMap TxEvent.compIdx =
      (List.range steps.length).reverse ∧
    (rollbackSteps steps (some f)).filterMap TxEvent.rbCbIdx =
      (steps.enum.reverse.filter fun p => p.2.rollback.isOk).map Prod.fst := by
  refine ⟨rollbackSteps_compIdx steps (some f), ?_⟩
  rw [rollbackSteps, rollbackSweep_rbCbIdx f hf]

/-- Witness: two steps, the compensation of step 0 throws; compensations
are attempted for `[1, 0]` while the callback fires for `[1]` only. -/
theorem rollback_callback_per_successful_compensation_witness :
    (rollbackSteps [(⟨.ok 10, .error 9, none⟩ : TransactionStep Nat Nat),
        ⟨.ok 20, .ok (), none⟩] (some fun _ _ => .ok ())).filterMap
          TxEvent.compIdx =
      (List.range 2).reverse ∧
    (rollbackSteps [(⟨.ok 10, .error 9, none⟩ : TransactionStep Nat Nat),
        ⟨.ok 20, .ok (), none⟩] (some fun _ _ => .ok ())).filterMap
          TxEvent.rbCbIdx =
      (([(⟨.ok 10, .error 9, none⟩ : TransactionStep Nat Nat),
          ⟨.ok 20, .ok (), none⟩].enum.reverse.filter
            fun p => p.2.rollback.isOk).map Prod.fst) :=
  rollback_callback_per_successful_compensation _ _ (fun _ _ => rfl)

/-- C7: if a transaction's rollback is triggered by step `k` throwing `e`
and the compensation of some earlier completed step `j` itself throws, the
sweep is not aborted — the compensations of all `k-1` completed steps are
still attempted, in reverse order — and the returned result still reports
the original triggering error `e`, not the compensation's. -/
theorem rollback_resilience {E T : Type}
    (steps : List (TransactionStep E T)) (opts : TransactionOptions E)
    (k : Nat) (sk : TransactionStep E T) (e : E)
    (j : Nat) (sj : TransactionStep E T) (e' : E)
    (hcb : ∀ f, opts.onStepComplete = some f → ∀ a b d, f a b d = Except.ok ())
    (hk : 1 ≤ k)
    (hsk : steps.get? (k - 1) = some sk) (hfail : sk.execute = .error e)
    (hok : ∀ j s, j < k - 1 → steps.get? j = some s → s.execute.isOk)
    (hj : j < k - 1) (hsj : steps.get? j = some sj)
    (hjthrow : sj.rollback = .error e') :
    ∃ r log, transaction steps opts = .ok (r, log) ∧
      r.error = some e ∧
      log.filterMap TxEvent.compIdx = (List.range (k - 1)).reverse := by
  obtain ⟨vs, pre, heq, h1, h2⟩ :=
    transactionGo_fail steps opts hcb steps (k - 1) 0 0 [] [] sk e hsk hfail hok
  simp only [List.nil_append, Nat.zero_add] at heq
  have hlen : k - 1 ≤ steps.length := Nat.le_of_lt (List.get?_eq_some.mp hsk).1
  refine ⟨_, _, heq, rfl, ?_⟩
  rw [List.filterMap_append, h1, rollbackSteps_compIdx, List.length_take,
    Nat.min_eq_left hlen, List.nil_append]

/-- Witness: three completed steps, the middle compensation throws, the
fourth step fails; steps 2 and 0 still get their compensation attempted
(the sweep log is `[2, 1, 0]`), and the result carries error 5. -/
theorem rollback_resilience_witness :
    ∃ r log,
      transaction [(⟨.ok 1, .ok (), none⟩ : TransactionStep Nat Nat),
          ⟨.ok 2, .error 9, none⟩, ⟨.ok 3, .ok (), none⟩,
          ⟨.error 5, .ok (), none⟩] ⟨none, none⟩ = .ok (r, log) ∧
      r.error = some 5 ∧
      log.filterMap TxEvent.compIdx = (List.range 3).reverse :=
  rollback_resilience _ _ 4 _ 5 1 _ 9 (fun _ h => nomatch h) (by omega) rfl rfl
    (by
      intro j s hj hs
      match j, hj with
      | 0, _ =>
        simp only [List.get?_cons_zero, Option.some_inj] at hs
        subst hs; rfl
      | 1, _ =>
        simp only [List.get?_cons_succ, List.get?_cons_zero,
          Option.some_inj] at hs
        subst hs; rfl
      | 2, _ =>
        simp only [List.get?_cons_succ, List.get?_cons_zero,
          Option.some_inj] at hs
        subst hs; rfl)
    (by omega) rfl rfl

/-- C10: `transaction` never throws to its caller — for every step list and
options (including steps whose actions or compensations throw and callbacks
that throw) it returns a `TransactionResult`; no exception propagates. -/
theorem transaction_never_throws {E T : Type}
    (steps : List (TransactionStep E T)) (opts : TransactionOptions E) :
    ∃ out, transaction steps opts = .ok out :=
  transactionGo_total steps opts steps 0 0 [] []

/-! ## Lemmas about retry -/

/-- Operation-call attempt numbers recorded in an exhaustion trace. -/
theorem exhaustTrace_opIdx (cb : Bool) :
    ∀ m s, (exhaustTrace cb s m).filterMap REvent.opIdx = List.range' s m
  | 0, _ => rfl
  | m + 1, s => by
    have ih := exhaustTrace_opIdx cb m (s + 1)
    cases cb <;> simp_all [exhaustTrace, REvent.opIdx, List.range'_succ]

/-- Callback attempt numbers recorded in an exhaustion trace with the
`onRetry` callback configured. -/
theorem exhaustTrace_cbIdx :
    ∀ m s, (exhaustTrace true s m).filterMap REvent.cbIdx = List.range' s m
  | 0, _ => rfl
  | m + 1, s => by
    simp [exhaustTrace, REvent.cbIdx, exhaustTrace_cbIdx m (s + 1),
      List.range'_succ]

/-- Sleep attempt numbers recorded in an exhaustion trace. -/
theorem exhaustTrace_sleptIdx (cb : Bool) :
    ∀ m s, (exhaustTrace cb s m).filterMap REvent.sleptIdx = List.range' s m
  | 0, _ => rfl
  | m + 1, s => by
    have ih := exhaustTrace_sleptIdx cb m (s + 1)
    cases cb <;> simp_all [exhaustTrace, REvent.sleptIdx, List.range'_succ]

/-- Characterization of the retry loop when every attempt from `s` through
`n` fails: the loop makes all those attempts (retrying after each one but
the last) and then produces the composite error carrying the last attempt's
error and the configured attempt count. -/
theorem retryLoop_exhaust {E T : Type} (op : Nat → Except E T) (n : Nat)
    (cb : Bool) (errf : Nat → E) :
    ∀ m s (lastError : Option E) (log : List REvent), s + m = n →
      (∀ k, s ≤ k → k ≤ n → op k = .error (errf k)) →
      retryLoop op n cb (List.range' s (m + 1)) lastError log =
        (.error ⟨some (errf n), n⟩,
          log ++ exhaustTrace cb s m ++ [.opCalled n])
  | 0, s, lastError, log, hs, hop => by
    subst hs
    simp only [Nat.add_zero] at *
    have h1 : op s = .error (errf s) := hop s le_rfl le_rfl
    simp [retryLoop, h1, exhaustTrace]
  | m + 1, s, lastError, log, hs, hop => by
    have hsn : s < n := by omega
    have h1 : op s = .error (errf s) := hop s le_rfl (by omega)
    have ih := retryLoop_exhaust op n cb errf m (s + 1) (some (errf s))
      (log ++ [REvent.opCalled s] ++
        (if cb then [REvent.onRetryCalled s] else []) ++ [REvent.slept s])
      (by omega) (fun k hk1 hk2 => hop k (by omega) hk2)
    rw [List.range'_succ]
    rw [show retryLoop op n cb (s :: List.range' (s + 1) (m + 1)) lastError log =
        retryLoop op n cb (List.range' (s + 1) (m + 1)) (some (errf s))
          (log ++ [REvent.opCalled s] ++
            (if cb then [REvent.onRetryCalled s] else []) ++ [REvent.slept s])
        from by simp [retryLoop, h1, hsn]]
    rw [ih]
    simp [exhaustTrace, List.append_assoc]

/-- Characterization of the retry loop when the attempts from `s` up to
`m - 1` fail and attempt `m` succeeds with `v`: the loop returns `v`, having
invoked the operation exactly for attempts `s..m`. -/
theorem retryLoop_succeeds {E T : Type} (op : Nat → Except E T) (n : Nat)
    (cb : Bool) :
    ∀ len s (lastError : Option E) (log : List REvent) (m : Nat) (v : T),
      s + len = n + 1 → s ≤ m → m ≤ n →
      (∀ k, s ≤ k → k < m → (op k).isOk = false) → op m = .ok v →
      ∃ tail, retryLoop op n cb (List.range' s len) lastError log =
          (.ok v, log ++ tail) ∧
        tail.filterMap REvent.opIdx = List.range' s (m + 1 - s)
  | 0, s, _, _, m, _, hlen, hsm, hmn, _, _ => by omega
  | len + 1, s, lastError, log, m, v, hlen, hsm, hmn, herr, hok => by
    rw [List.range'_succ]
    rcases Nat.eq_or_lt_of_le hsm with heq | hlt
    · subst heq
      refine ⟨[.opCalled s], ?_, ?_⟩
      · simp [retryLoop, hok]
      · simp [REvent.opIdx, show s + 1 - s = 1 from by omega]
    · have hs : (op s).isOk = false := herr s le_rfl hlt
      rcases he : op s with e | u
      · have hsn : s < n := by omega
        obtain ⟨tail, htail, hidx⟩ :=
          retryLoop_succeeds op n cb len (s + 1) (some e)
            (log ++ [REvent.opCalled s] ++
              (if cb then [REvent.onRetryCalled s] else []) ++ [REvent.slept s])
            m v (by omega) (by omega) hmn
            (fun k hk1 hk2 => herr k (by omega) hk2) hok
        refine ⟨[REvent.opCalled s] ++
          (if cb then [REvent.onRetryCalled s] else []) ++ [REvent.slept s] ++
            tail, ?_, ?_⟩
        · rw [show retryLoop op n cb (s :: List.range' (s + 1) len) lastError log =
              retryLoop op n cb (List.range' (s + 1) len) (some e)
                (log ++ [REvent.opCalled s] ++
                  (if cb then [REvent.onRetryCalled s] else []) ++
                    [REvent.slept s])
              from by simp [retryLoop, he, hsn]]
          rw [htail]
          simp [List.append_assoc]
        · rw [show m + 1 - s = (m + 1 - (s + 1)) + 1 from by omega,
            List.range'_succ]
          cases cb <;>
            simp [REvent.opIdx, hidx, show m + 1 - (s + 1) + (s + 1) =
              m + 1 from by omega]
      · rw [he] at hs
        simp [Except.isOk, Except.toBool] at hs

/-- C6: with a maximum of `n ≥ 1` attempts and the `onRetry` callback
configured, (a) an operation that throws on every invocation is invoked
exactly `n` times (attempts `1..n`), the callback fires exactly `n - 1`
times (attempts `1..n-1`, each immediately before the corresponding sleep,
as the `exhaustTrace` shape shows), and `retry` then throws a composite
`RetryError` carrying the last underlying error and the attempt count `n`;
(b) an operation that fails fewer than `n` times and then succeeds makes
`retry` return the success value. -/
theorem retry_exhaustion_and_recovery {E T : Type} (n : Nat)
    (op : Nat → Except E T) (hn : 1 ≤ n) :
    (∀ errf : Nat → E, (∀ k, 1 ≤ k → k ≤ n → op k = .error (errf k)) →
      retry op (some n) true =
        (.error ⟨some (errf n), n⟩,
          exhaustTrace true 1 (n - 1) ++ [.opCalled n]) ∧
      (exhaustTrace true 1 (n - 1) ++
          [REvent.opCalled n]).filterMap REvent.opIdx = List.range' 1 n ∧
      (exhaustTrace true 1 (n - 1) ++
          [REvent.opCalled n]).filterMap REvent.cbIdx = List.range' 1 (n - 1) ∧
      (exhaustTrace true 1 (n - 1) ++
          [REvent.opCalled n]).filterMap REvent.sleptIdx =
        List.range' 1 (n - 1)) ∧
    (∀ m v, 1 ≤ m → m ≤ n → (∀ k, 1 ≤ k → k < m → (op k).isOk = false) →
      op m = .ok v →
      ∃ log, retry op (some n) true = (.ok v, log) ∧
        log.filterMap REvent.opIdx = List.range' 1 m) := by
  constructor
  · intro errf hop
    have h := retryLoop_exhaust op n true errf (n - 1) 1 none []
      (by omega) (fun k hk1 hk2 => hop k hk1 hk2)
    rw [show n - 1 + 1 = n from by omega] at h
    have hconc : List.range' 1 n = List.range' 1 (n - 1) ++ [n] := by
      have h2 := List.range'_1_concat 1 (n - 1)
      rw [show 1 + (n - 1) = n from by omega,
        show n - 1 + 1 = n from by omega] at h2
      exact h2
    refine ⟨?_, ?_, ?_, ?_⟩
    · rw [retry, Option.getD_some, h, List.nil_append]
    · rw [List.filterMap_append, exhaustTrace_opIdx, hconc]
      simp [REvent.opIdx]
    · rw [List.filterMap_append, exhaustTrace_cbIdx]
      simp [REvent.cbIdx]
    · rw [List.filterMap_append, exhaustTrace_sleptIdx]
      simp [REvent.sleptIdx]
  · intro m v hm1 hmn herr hok
    obtain ⟨tail, htail, hidx⟩ :=
      retryLoop_succeeds op n true n 1 none [] m v (by omega) hm1 hmn herr hok
    refine ⟨tail, ?_, ?_⟩
    · rw [retry, Option.getD_some, htail, List.nil_append]
    · rw [hidx, show m + 1 - 1 = m from by omega]

/-- Witness: `op` always throws its attempt number; with 3 attempts, the
operation is called for attempts `[1, 2, 3]`, the callback fires for
`[1, 2]`, and the composite error carries the last error 3 and attempts 3. -/
theorem retry_exhaustion_and_recovery_witness :
    retry (fun k => (Except.error k : Except Nat Nat)) (some 3) true =
      (.error ⟨some 3, 3⟩, exhaustTrace true 1 2 ++ [.opCalled 3]) ∧
    (exhaustTrace true 1 2 ++
        [REvent.opCalled 3]).filterMap REvent.opIdx = List.range' 1 3 ∧
    (exhaustTrace true 1 2 ++
        [REvent.opCalled 3]).filterMap REvent.cbIdx = List.range' 1 2 ∧
    (exhaustTrace true 1 2 ++
        [REvent.opCalled 3]).filterMap REvent.sleptIdx = List.range' 1 2 :=
  (retry_exhaustion_and_recovery 3 _ (by omega)).1 id (fun k _ _ => rfl)

/-- C3 counterexample: an operation that succeeds on its very first try,
run through `retryWithResult` with a maximum of 3 attempts, makes exactly 1
actual attempt, yet the returned outcome's `attempts` field is 3, not 1. -/
theorem retryWithResult_reports_configured_attempts :
    (retryWithResult (fun _ => (Except.ok 42 : Except Nat Nat))
        (some 3) false).1.attempts = 3 ∧
    ((retryWithResult (fun _ => (Except.ok 42 : Except Nat Nat))
        (some 3) false).2.filterMap REvent.opIdx).length = 1 ∧
    (3 : Nat) ≠ 1 :=
  ⟨by decide, by decide, by decide⟩

/-- C3 (amended): the `attempts` field of the outcome returned by
`retryWithResult` equals the configured maximum (`options.attempts` when
truthy, else the default 3) on both the success and the exhaustion path;
on the exhaustion path with a truthy configured maximum this coincides with
the number of attempts actually made, but on an early success it is the
configured maximum rather than the actual count. -/
theorem retryWithResult_attempts_field {E T : Type} (op : Nat → Except E T)
    (attemptsOpt : Option Nat) (cb : Bool) :
    (retryWithResult op attemptsOpt cb).1.attempts = jsOrNat attemptsOpt 3 ∧
    (∀ n (errf : Nat → E), attemptsOpt = some n → 1 ≤ n →
      (∀ k, 1 ≤ k → k ≤ n → op k = .error (errf k)) →
      ((retryWithResult op attemptsOpt cb).2.filterMap REvent.opIdx).length =
        (retryWithResult op attemptsOpt cb).1.attempts) := by
  constructor
  · rcases h : retry op attemptsOpt cb with ⟨res, log⟩
    rcases res with re | v <;> simp [retryWithResult, h]
  · intro n errf hopt hn hop
    subst hopt
    have h := retryLoop_exhaust op n cb errf (n - 1) 1 none []
      (by omega) (fun k hk1 hk2 => hop k hk1 hk2)
    rw [show n - 1 + 1 = n from by omega] at h
    have hr : retry op (some n) cb =
        (.error ⟨some (errf n), n⟩,
          exhaustTrace cb 1 (n - 1) ++ [.opCalled n]) := by
      rw [retry, Option.getD_some, h, List.nil_append]
    simp only [retryWithResult, hr]
    rw [List.filterMap_append, exhaustTrace_opIdx]
    simp only [REvent.opIdx, List.filterMap_cons, List.filterMap_nil]
    simp [jsOrNat, show n ≠ 0 from by omega]
    omega

/-- Witness: for an always-failing operation under a configured maximum of
3, the reported `attempts` is 3 and equals the 3 attempts actually made;
the first conjunct instantiates the field characterization itself. -/
theorem retryWithResult_attempts_field_witness :
    (retryWithResult (fun k => (Except.error k : Except Nat Nat))
        (some 3) true).1.attempts = jsOrNat (some 3) 3 ∧
    ((retryWithResult (fun k => (Except.error k : Except Nat Nat))
        (some 3) true).2.filterMap REvent.opIdx).length =
      (retryWithResult (fun k => (Except.error k : Except Nat Nat))
        (some 3) true).1.attempts :=
  ⟨(retryWithResult_attempts_field _ (some 3) true).1,
    (retryWithResult_attempts_field _ (some 3) true).2 3 id rfl (by omega)
      (fun k _ _ => rfl)⟩

/-! ## Lemmas about exec -/

/-- C5: divergence between the two exec paths on timeout.  In the buffered
path, the timeout makes `execAsync` reject with a `null` exit code
(`killed: true`), and the `catch` branch reports `success = false` with the
non-zero exit code `error.code || 1` — as the claim states.  In the
streaming path, the timeout handler runs `child.kill()`, the child's
`close` event fires with `code = null`, and the handler computes
`exitCode = code || 0 = 0` and `success = exitCode === 0 = true` — the
timed-out command is reported as a success with the OK exit status,
contradicting the claim (and the buffered path's own behavior). -/
theorem exec_timeout_divergence :
    (∀ (cmd : String) (out err : Option String) (msg : String)
      (code : Option Int),
      (execBuffered cmd (.rejected out err msg code)).success = false ∧
      (execBuffered cmd (.rejected out err msg code)).exitCode ≠ 0) ∧
    (∀ cmd acc1 acc2,
      (execStreamingClose cmd acc1 acc2 none).success = true ∧
      (execStreamingClose cmd acc1 acc2 none).exitCode = 0) := by
  constructor
  · intro cmd out err msg code
    refine ⟨rfl, ?_⟩
    show jsOrInt code 1 ≠ 0
    rcases code with _ | c
    · simp [jsOrInt]
    · by_cases hc : c = 0 <;> simp [jsOrInt, hc]
  · intro cmd acc1 acc2
    exact ⟨rfl, rfl⟩

/-! ## Lemmas about the parallel executor -/

/-- Updating position `i` of a list (whose old element there is `a`) changes
a `countP` by replacing `a`'s contribution with `b`'s. -/
theorem countP_set_add {α : Type} (p : α → Bool) :
    ∀ (l : List α) (i : Nat) (a b : α), l[i]? = some a →
      (l.set i b).countP p + (if p a then 1 else 0) =
        l.countP p + (if p b then 1 else 0)
  | [], i, _, _, h => by simp at h
  | x :: xs, 0, a, b, h => by
    rw [List.getElem?_cons_zero, Option.some_inj] at h
    subst h
    simp only [List.set_cons_zero, List.countP_cons]
    omega
  | x :: xs, i + 1, a, b, h => by
    rw [List.getElem?_cons_succ] at h
    have ih := countP_set_add p xs i a b h
    simp only [List.set_cons_succ, List.countP_cons]
    omega

/-- One scheduler step never changes the number of workers. -/
theorem pstep_workers_length {E T : Type} (tasks : List (Except E T))
    (stop : Bool) (s : PState E T) (w : Nat) :
    (pstep tasks stop s w).workers.length = s.workers.length := by
  rcases hw : s.workers[w]? with _ | st
  · simp [pstep, hw]
  · rcases st with _ | i | _ | e
    · by_cases hi : s.index < tasks.length <;>
        simp [pstep, hw, hi, List.length_set]
    · rcases ht : tasks[i]? with _ | x
      · simp [pstep, hw, ht]
      · rcases x with e | v <;> simp [pstep, hw, ht, List.length_set]
    · simp [pstep, hw]
    · simp [pstep, hw]

/-- One scheduler step preserves the counting invariant: the number of
`started` events always exceeds the number of `finished` events by exactly
the number of workers currently running a task. -/
theorem pstep_counting {E T : Type} (tasks : List (Except E T))
    (stop : Bool) (s : PState E T) (w : Nat)
    (h : startedCount s.log = finishedCount s.log + runningCount s) :
    startedCount (pstep tasks stop s w).log =
      finishedCount (pstep tasks stop s w).log +
        runningCount (pstep tasks stop s w) := by
  have hrc : ∀ (ws : List (WStatus E)) (i : Nat) (a b : WStatus E),
      ws[i]? = some a →
      (ws.set i b).countP WStatus.isRunning + (if a.isRunning then 1 else 0) =
        ws.countP WStatus.isRunning + (if b.isRunning then 1 else 0) :=
    fun ws i a b hab => countP_set_add WStatus.isRunning ws i a b hab
  rcases hw : s.workers[w]? with _ | st
  · simpa [pstep, hw] using h
  · rcases st with _ | i | _ | e
    · by_cases hi : s.index < tasks.length
      · have hc := hrc s.workers w .claiming (.running s.index) hw
        simp only [pstep, hw, hi, if_pos]
        simp only [runningCount, startedCount, finishedCount,
          List.countP_append, ← List.countP_eq_length_filter] at *
        simp only [WStatus.isRunning, List.countP_cons, List.countP_nil] at *
        omega
      · have hc := hrc s.workers w .claiming .done hw
        simp only [pstep, hw, hi, if_neg, ite_false]
        simp only [runningCount, startedCount, finishedCount,
          ← List.countP_eq_length_filter] at *
        simp only [WStatus.isRunning] at *
        omega
    · rcases ht : tasks[i]? with _ | x
      · simpa [pstep, hw, ht] using h
      · rcases x with e | v
        · have hc := hrc s.workers w (.running i)
            (if stop then .dead e else .claiming) hw
          simp only [pstep, hw, ht]
          simp only [runningCount, startedCount, finishedCount,
            List.countP_append, ← List.countP_eq_length_filter] at *
          simp only [WStatus.isRunning, List.countP_cons, List.countP_nil] at *
          rcases stop with _ | _ <;> simp_all <;> omega
        · have hc := hrc s.workers w (.running i) .claiming hw
          simp only [pstep, hw, ht]
          simp only [runningCount, startedCount, finishedCount,
            List.countP_append, ← List.countP_eq_length_filter] at *
          simp only [WStatus.isRunning, List.countP_cons, List.countP_nil] at *
          omega
    · simpa [pstep, hw] using h
    · simpa [pstep, hw] using h

/-- The two C9 invariants hold after any run: worker count is pinned at
`min concurrency n`, and started-minus-finished equals the number of
running workers. -/
theorem prun_invariants {E T : Type} (tasks : List (Except E T)) (stop : Bool)
    (c : Nat) :
    ∀ (schedule : List Nat) (s : PState E T),
      s.workers.length = min c tasks.length →
      startedCount s.log = finishedCount s.log + runningCount s →
      (schedule.foldl (pstep tasks stop) s).workers.length =
          min c tasks.length ∧
        startedCount (schedule.foldl (pstep tasks stop) s).log =
          finishedCount (schedule.foldl (pstep tasks stop) s).log +
            runningCount (schedule.foldl (pstep tasks stop) s)
  | [], s, h1, h2 => ⟨h1, h2⟩
  | w :: rest, s, h1, h2 => by
    rw [List.foldl_cons]
    exact prun_invariants tasks stop c rest (pstep tasks stop s w)
      (by rw [pstep_workers_length]; exact h1)
      (pstep_counting tasks stop s w h2)

/-- C9: at every instant of every `parallel` run — i.e. after every prefix
of every schedule — the number of tasks started but not yet finished equals
the number of workers currently awaiting a task, and never exceeds the
configured concurrency ceiling `c`. -/
theorem parallel_concurrency_ceiling {E T : Type} (tasks : List (Except E T))
    (stop : Bool) (c : Nat) (schedule : List Nat) :
    startedCount (prun tasks stop c schedule).log =
      finishedCount (prun tasks stop c schedule).log +
        runningCount (prun tasks stop c schedule) ∧
    runningCount (prun tasks stop c schedule) ≤ c := by
  have h := prun_invariants tasks stop c schedule (pinit tasks c)
    (by simp [pinit])
    (by simp [pinit, startedCount, finishedCount, runningCount,
      List.filter_replicate, WStatus.isRunning])
  refine ⟨h.2, ?_⟩
  calc runningCount (prun tasks stop c schedule)
      ≤ (prun tasks stop c schedule).workers.length :=
        List.length_filter_le _ _
    _ = min c tasks.length := h.1
    _ ≤ c := Nat.min_le_left c tasks.length

/-- C2 counterexample: tasks `[fail, slow-ok, ok]`, concurrency 2,
`stopOnError = true`.  After schedule `[0, 1, 0]` worker 0 has observed
task 0's failure and died while task 2 is still unclaimed (`index = 2`) and
`Promise.all` has already rejected; yet the continued run starts task 2
afterwards (the `started 2` event follows `finished 0` in the log), and the
settled await hands the caller a normal `ParallelResult` — the aggregate
failure does not propagate. -/
theorem parallel_stop_on_error_claim_fails :
    (prun ([.error 0, .ok 1, .ok 2] : List (Except Nat Nat)) true 2
        [0, 1, 0]).index = 2 ∧
    (prun ([.error 0, .ok 1, .ok 2] : List (Except Nat Nat)) true 2
        [0, 1, 0]).workers[0]? = some (.dead 0) ∧
    promiseAll (prun ([.error 0, .ok 1, .ok 2] : List (Except Nat Nat)) true 2
        [0, 1, 0]) = some (.error 0) ∧
    (prun ([.error 0, .ok 1, .ok 2] : List (Except Nat Nat)) true 2
        [0, 1, 0, 1, 1, 1, 1]).log =
      [.started 0, .started 1, .finished 0, .finished 1, .started 2,
        .finished 2] ∧
    parallelSettle (prun ([.error 0, .ok 1, .ok 2] : List (Except Nat Nat))
        true 2 [0, 1, 0]) =
      some (.ok ⟨[some (.error 0), none, none], 0, 1⟩) :=
  ⟨by decide, by decide, by decide, by decide, by decide⟩

/-- C2 (amended): with `stopOnError = true`, (a) the worker that observed a
task failure rethrows and makes no further progress — it claims and starts
nothing more; (b) the rejection of `Promise.all` is caught by `parallel`
itself, so whenever the await settles the caller receives a normal
`ParallelResult`, never a thrown error; (c) any other worker still at its
loop head continues to claim and start remaining tasks even while a dead
worker exists — in-flight work finishes naturally and new tasks may still
be started after the failure. -/
theorem parallel_stop_on_error_behavior {E T : Type} :
    (∀ (tasks : List (Except E T)) (stop : Bool) (s : PState E T)
      (w : Nat) (e : E),
      s.workers[w]? = some (.dead e) → pstep tasks stop s w = s) ∧
    (∀ s : PState E T,
      parallelSettle s = none ∨ ∃ pr, parallelSettle s = some (.ok pr)) ∧
    (∀ (tasks : List (Except E T)) (stop : Bool) (s : PState E T) (w : Nat),
      s.workers[w]? = some .claiming → s.index < tasks.length →
      (pstep tasks stop s w).log = s.log ++ [.started s.index]) := by
  refine ⟨?_, ?_, ?_⟩
  · intro tasks stop s w e hw
    simp [pstep, hw]
  · intro s
    rcases hp : promiseAll s with _ | r
    · exact .inl (by simp [parallelSettle, hp])
    · rcases r with e | u
      · exact .inr ⟨snapshot s, by simp [parallelSettle, hp]⟩
      · exact .inr ⟨snapshot s, by simp [parallelSettle, hp]⟩
  · intro tasks stop s w hw hi
    simp [pstep, hw, hi]

/-- Witness: in the state reached by schedule `[0, 1, 0, 1]` (worker 0 dead
from task 0's failure, worker 1 back at its loop head), the dead worker's
step is a no-op, the settle result is pending-or-normal, and worker 1's
step starts the still-unclaimed task 2. -/
theorem parallel_stop_on_error_behavior_witness :
    pstep ([.error 0, .ok 1, .ok 2] : List (Except Nat Nat)) true
        (prun ([.error 0, .ok 1, .ok 2] : List (Except Nat Nat)) true 2
          [0, 1, 0, 1]) 0 =
      prun ([.error 0, .ok 1, .ok 2] : List (Except Nat Nat)) true 2
        [0, 1, 0, 1] ∧
    (parallelSettle (prun ([.error 0, .ok 1, .ok 2] : List (Except Nat Nat))
        true 2 [0, 1, 0, 1]) = none ∨
      ∃ pr, parallelSettle (prun ([.error 0, .ok 1, .ok 2] :
          List (Except Nat Nat)) true 2 [0, 1, 0, 1]) = some (.ok pr)) ∧
    (pstep ([.error 0, .ok 1, .ok 2] : List (Except Nat Nat)) true
        (prun ([.error 0, .ok 1, .ok 2] : List (Except Nat Nat)) true 2
          [0, 1, 0, 1]) 1).log =
      (prun ([.error 0, .ok 1, .ok 2] : List (Except Nat Nat)) true 2
        [0, 1, 0, 1]).log ++
        [.started (prun ([.error 0, .ok 1, .ok 2] : List (Except Nat Nat))
          true 2 [0, 1, 0, 1]).index] :=
  ⟨parallel_stop_on_error_behavior.1 _ true _ 0 0 (by decide),
    parallel_stop_on_error_behavior.2.1 _,
    parallel_stop_on_error_behavior.2.2 _ true _ 1 (by decide) (by decide)⟩

/-- The invariant survives a task-completion write: worker `w` was running
task `i`, slot `i` receives the task's outcome, the counters absorb it, and
the worker moves to any non-running, non-done status (its loop head, or
dead). -/
theorem PInv_write {E T : Type} (tasks : List (Except E T)) (s : PState E T)
    (w i : Nat) (out : Except E T) (st' : WStatus E) (succ' fail' comp' : Nat)
    (hinv : PInv tasks s) (hw : s.workers[w]? = some (.running i))
    (ht : tasks[i]? = some out)
    (hst' : ∀ j, st' ≠ .running j) (hstd : st' ≠ .done)
    (hsucc : succ' = s.successful + (if isOkSlot (some out) then 1 else 0))
    (hfail : fail' = s.failed + (if isErrSlot (some out) then 1 else 0)) :
    PInv tasks ({ s with
          results := s.results.set i (some out),
          successful := succ',
          failed := fail',
          completed := comp',
          workers := s.workers.set w st',
          log := s.log ++ [.finished i] }) := by
  have hii : i < tasks.length :=
    lt_of_lt_of_le (hinv.running_lt w i hw) hinv.idx_le
  have hir : i < s.results.length := by rw [hinv.rlen]; exact hii
  have hwl : w < s.workers.length := (List.getElem?_eq_some.mp hw).1
  have hslot : s.results[i]? = some none := hinv.running_none w i hw
  constructor
  all_goals dsimp only
  · simp [List.length_set, hinv.rlen]
  · exact hinv.idx_le
  · intro j x hj
    by_cases hji : j = i
    · subst hji
      rw [List.getElem?_set_eq_of_lt (some out) hir] at hj
      simp only [Option.some_inj] at hj
      rw [← hj]
      exact ht
    · rw [List.getElem?_set_ne (fun hh => hji hh.symm)] at hj
      exact hinv.filled j x hj
  · intro j h1 h2
    have hne : i ≠ j := by
      have := hinv.running_lt w i hw
      omega
    rw [List.getElem?_set_ne hne]
    exact hinv.unclaimed j h1 h2
  · intro w' j hw'
    by_cases hww : w' = w
    · subst hww
      rw [List.getElem?_set_eq_of_lt st' hwl] at hw'
      exact absurd (Option.some_inj.mp hw') (hst' j)
    · rw [List.getElem?_set_ne (fun hh => hww hh.symm)] at hw'
      exact hinv.running_lt w' j hw'
  · intro w' j hw'
    by_cases hww : w' = w
    · subst hww
      rw [List.getElem?_set_eq_of_lt st' hwl] at hw'
      exact absurd (Option.some_inj.mp hw') (hst' j)
    · rw [List.getElem?_set_ne (fun hh => hww hh.symm)] at hw'
      have hji : j ≠ i := by
        intro hh
        subst hh
        exact hww (hinv.running_uniq w' w j hw' hw)
      rw [List.getElem?_set_ne (fun hh => hji hh.symm)]
      exact hinv.running_none w' j hw'
  · intro w1 w2 j h1 h2
    by_cases hw1 : w1 = w
    · subst hw1
      rw [List.getElem?_set_eq_of_lt st' hwl] at h1
      exact absurd (Option.some_inj.mp h1) (hst' j)
    · by_cases hw2 : w2 = w
      · subst hw2
        rw [List.getElem?_set_eq_of_lt st' hwl] at h2
        exact absurd (Option.some_inj.mp h2) (hst' j)
      · rw [List.getElem?_set_ne (fun hh => hw1 hh.symm)] at h1
        rw [List.getElem?_set_ne (fun hh => hw2 hh.symm)] at h2
        exact hinv.running_uniq w1 w2 j h1 h2
  · intro w' hd
    by_cases hww : w' = w
    · subst hww
      rw [List.getElem?_set_eq_of_lt st' hwl] at hd
      exact absurd (Option.some_inj.mp hd) hstd
    · rw [List.getElem?_set_ne (fun hh => hww hh.symm)] at hd
      exact hinv.done_full w' hd
  · intro j hj
    by_cases hji : j = i
    · subst hji
      exact .inl ⟨out, by rw [List.getElem?_set_eq_of_lt (some out) hir]⟩
    · rcases hinv.claimed j hj with ⟨x, hx⟩ | ⟨w'', hww⟩
      · exact .inl ⟨x, by
          rw [List.getElem?_set_ne (fun hh => hji hh.symm)]; exact hx⟩
      · by_cases hw2 : w'' = w
        · subst hw2
          rw [hw] at hww
          simp only [Option.some_inj, WStatus.running.injEq] at hww
          exact absurd hww.symm hji
        · exact .inr ⟨w'', by
            rw [List.getElem?_set_ne (fun hh => hw2 hh.symm)]; exact hww⟩
  · have hc := countP_set_add isOkSlot s.results i none (some out) hslot
    have hn : isOkSlot (none : Option (Except E T)) = false := rfl
    rw [hn] at hc
    rw [hsucc, hinv.succ_count]
    cases hcase : isOkSlot (some out) <;> rw [hcase] at hc <;>
      simp only [show (if (false = true) then (1 : Nat) else 0) = 0 from rfl,
        show (if (true = true) then (1 : Nat) else 0) = 1 from rfl] at hc ⊢ <;>
      omega
  · have hc := countP_set_add isErrSlot s.results i none (some out) hslot
    have hn : isErrSlot (none : Option (Except E T)) = false := rfl
    rw [hn] at hc
    rw [hfail, hinv.fail_count]
    cases hcase : isErrSlot (some out) <;> rw [hcase] at hc <;>
      simp only [show (if (false = true) then (1 : Nat) else 0) = 0 from rfl,
        show (if (true = true) then (1 : Nat) else 0) = 1 from rfl] at hc ⊢ <;>
      omega

/-- The invariant survives a claim: a worker at its loop head with the
cursor not yet exhausted claims the cursor index and starts that task. -/
theorem PInv_claim {E T : Type} (tasks : List (Except E T)) (s : PState E T)
    (w : Nat) (hinv : PInv tasks s) (hw : s.workers[w]? = some .claiming)
    (hi : s.index < tasks.length) :
    PInv tasks ({ s with
          index := s.index + 1,
          workers := s.workers.set w (.running s.index),
          log := s.log ++ [.started s.index] }) := by
  have hwl : w < s.workers.length := (List.getElem?_eq_some.mp hw).1
  constructor
  all_goals dsimp only
  · exact hinv.rlen
  · exact hi
  · exact hinv.filled
  · intro j h1 h2
    exact hinv.unclaimed j (by omega) h2
  · intro w' j hw'
    by_cases hww : w' = w
    · subst hww
      rw [List.getElem?_set_eq_of_lt _ hwl] at hw'
      simp only [Option.some_inj, WStatus.running.injEq] at hw'
      omega
    · rw [List.getElem?_set_ne (fun hh => hww hh.symm)] at hw'
      have := hinv.running_lt w' j hw'
      omega
  · intro w' j hw'
    by_cases hww : w' = w
    · subst hww
      rw [List.getElem?_set_eq_of_lt _ hwl] at hw'
      simp only [Option.some_inj, WStatus.running.injEq] at hw'
      subst hw'
      exact hinv.unclaimed s.index le_rfl hi
    · rw [List.getElem?_set_ne (fun hh => hww hh.symm)] at hw'
      exact hinv.running_none w' j hw'
  · intro w1 w2 j h1 h2
    by_cases hw1 : w1 = w <;> by_cases hw2 : w2 = w
    · rw [hw1, hw2]
    · subst hw1
      rw [List.getElem?_set_eq_of_lt _ hwl] at h1
      rw [List.getElem?_set_ne (fun hh => hw2 hh.symm)] at h2
      simp only [Option.some_inj, WStatus.running.injEq] at h1
      have := hinv.running_lt w2 j h2
      omega
    · subst hw2
      rw [List.getElem?_set_eq_of_lt _ hwl] at h2
      rw [List.getElem?_set_ne (fun hh => hw1 hh.symm)] at h1
      simp only [Option.some_inj, WStatus.running.injEq] at h2
      have := hinv.running_lt w1 j h1
      omega
    · rw [List.getElem?_set_ne (fun hh => hw1 hh.symm)] at h1
      rw [List.getElem?_set_ne (fun hh => hw2 hh.symm)] at h2
      exact hinv.running_uniq w1 w2 j h1 h2
  · intro w' hd
    by_cases hww : w' = w
    · subst hww
      rw [List.getElem?_set_eq_of_lt _ hwl] at hd
      exact absurd (Option.some_inj.mp hd) (by intro hh; cases hh)
    · rw [List.getElem?_set_ne (fun hh => hww hh.symm)] at hd
      have := hinv.done_full w' hd
      omega
  · intro j hj
    by_cases hjs : j = s.index
    · subst hjs
      exact .inr ⟨w, by rw [List.getElem?_set_eq_of_lt _ hwl]⟩
    · rcases hinv.claimed j (by omega) with ⟨x, hx⟩ | ⟨w'', hww⟩
      · exact .inl ⟨x, hx⟩
      · by_cases hw2 : w'' = w
        · subst hw2
          rw [hw] at hww
          exact absurd (Option.some_inj.mp hww) (by intro hh; cases hh)
        · exact .inr ⟨w'', by
            rw [List.getElem?_set_ne (fun hh => hw2 hh.symm)]; exact hww⟩
  · exact hinv.succ_count
  · exact hinv.fail_count

/-- The invariant survives a worker's loop exit: the cursor is exhausted
and the worker resolves. -/
theorem PInv_retire {E T : Type} (tasks : List (Except E T)) (s : PState E T)
    (w : Nat) (hinv : PInv tasks s) (hw : s.workers[w]? = some .claiming)
    (hi : ¬ s.index < tasks.length) :
    PInv tasks ({ s with workers := s.workers.set w .done }) := by
  have hwl : w < s.workers.length := (List.getElem?_eq_some.mp hw).1
  constructor
  all_goals dsimp only
  · exact hinv.rlen
  · exact hinv.idx_le
  · exact hinv.filled
  · exact hinv.unclaimed
  · intro w' j hw'
    by_cases hww : w' = w
    · subst hww
      rw [List.getElem?_set_eq_of_lt _ hwl] at hw'
      exact absurd (Option.some_inj.mp hw') (by intro hh; cases hh)
    · rw [List.getElem?_set_ne (fun hh => hww hh.symm)] at hw'
      exact hinv.running_lt w' j hw'
  · intro w' j hw'
    by_cases hww : w' = w
    · subst hww
      rw [List.getElem?_set_eq_of_lt _ hwl] at hw'
      exact absurd (Option.some_inj.mp hw') (by intro hh; cases hh)
    · rw [List.getElem?_set_ne (fun hh => hww hh.symm)] at hw'
      exact hinv.running_none w' j hw'
  · intro w1 w2 j h1 h2
    by_cases hw1 : w1 = w
    · subst hw1
      rw [List.getElem?_set_eq_of_lt _ hwl] at h1
      exact absurd (Option.some_inj.mp h1) (by intro hh; cases hh)
    · by_cases hw2 : w2 = w
      · subst hw2
        rw [List.getElem?_set_eq_of_lt _ hwl] at h2
        exact absurd (Option.some_inj.mp h2) (by intro hh; cases hh)
      · rw [List.getElem?_set_ne (fun hh => hw1 hh.symm)] at h1
        rw [List.getElem?_set_ne (fun hh => hw2 hh.symm)] at h2
        exact hinv.running_uniq w1 w2 j h1 h2
  · intro w' hd
    have := hinv.idx_le
    omega
  · intro j hj
    rcases hinv.claimed j hj with ⟨x, hx⟩ | ⟨w'', hww⟩
    · exact .inl ⟨x, hx⟩
    · by_cases hw2 : w'' = w
      · subst hw2
        rw [hw] at hww
        exact absurd (Option.some_inj.mp hww) (by intro hh; cases hh)
      · exact .inr ⟨w'', by
          rw [List.getElem?_set_ne (fun hh => hw2 hh.symm)]; exact hww⟩
  · exact hinv.succ_count
  · exact hinv.fail_count

/-- The invariant is preserved by every scheduler step. -/
theorem pstep_inv {E T : Type} (tasks : List (Except E T)) (stop : Bool)
    (s : PState E T) (w : Nat) (hinv : PInv tasks s) :
    PInv tasks (pstep tasks stop s w) := by
  rcases hw : s.workers[w]? with _ | st
  · rw [show pstep tasks stop s w = s from by simp [pstep, hw]]
    exact hinv
  rcases st with _ | i | _ | e
  · by_cases hi : s.index < tasks.length
    · rw [show pstep tasks stop s w = ({ s with
            index := s.index + 1,
            workers := s.workers.set w (.running s.index),
            log := s.log ++ [.started s.index] })
          from by simp [pstep, hw, hi]]
      exact PInv_claim tasks s w hinv hw hi
    · rw [show pstep tasks stop s w = ({ s with
            workers := s.workers.set w .done })
          from by simp [pstep, hw, hi]]
      exact PInv_retire tasks s w hinv hw hi
  · have hii : i < tasks.length :=
      lt_of_lt_of_le (hinv.running_lt w i hw) hinv.idx_le
    rcases ht : tasks[i]? with _ | x
    · exact absurd (List.getElem?_eq_none_iff.mp ht) (by omega)
    · rcases x with e | v
      · rw [show pstep tasks stop s w = ({ s with
              results := s.results.set i (some (.error e)),
              successful := s.successful,
              failed := s.failed + 1,
              completed := s.completed + 1,
              workers := s.workers.set w
                (if stop then .dead e else .claiming),
              log := s.log ++ [.finished i] })
            from by simp [pstep, hw, ht]]
        exact PInv_write tasks s w i (.error e)
          (if stop then .dead e else .claiming)
          s.successful (s.failed + 1) (s.completed + 1) hinv hw ht
          (by intro j; cases stop <;> simp)
          (by cases stop <;> simp)
          (by simp [isOkSlot])
          (by simp [isErrSlot])
      · rw [show pstep tasks stop s w = ({ s with
              results := s.results.set i (some (.ok v)),
              successful := s.successful + 1,
              failed := s.failed,
              completed := s.completed + 1,
              workers := s.workers.set w .claiming,
              log := s.log ++ [.finished i] })
            from by simp [pstep, hw, ht]]
        exact PInv_write tasks s w i (.ok v) .claiming
          (s.successful + 1) s.failed (s.completed + 1) hinv hw ht
          (by intro j; simp)
          (by simp)
          (by simp [isOkSlot])
          (by simp [isErrSlot])
  · rw [show pstep tasks stop s w = s from by simp [pstep, hw]]
    exact hinv
  · rw [show pstep tasks stop s w = s from by simp [pstep, hw]]
    exact hinv

/-- The invariant holds initially. -/
theorem pinit_inv {E T : Type} (tasks : List (Except E T)) (c : Nat) :
    PInv tasks (pinit tasks c) := by
  constructor
  all_goals dsimp only [pinit]
  · simp
  · exact Nat.zero_le _
  · intro i x h
    rw [List.getElem?_replicate] at h
    by_cases hi : i < tasks.length <;> simp [hi] at h
  · intro i h1 h2
    rw [List.getElem?_replicate]
    simp [h2]
  · intro w i h
    rw [List.getElem?_replicate] at h
    by_cases hw : w < min c tasks.length <;> simp [hw] at h
  · intro w i h
    rw [List.getElem?_replicate] at h
    by_cases hw : w < min c tasks.length <;> simp [hw] at h
  · intro w1 w2 i h1 h2
    rw [List.getElem?_replicate] at h1
    by_cases hw : w1 < min c tasks.length <;> simp [hw] at h1
  · intro w h
    rw [List.getElem?_replicate] at h
    by_cases hw : w < min c tasks.length <;> simp [hw] at h
  · intro i h
    exact absurd h (Nat.not_lt_zero i)
  · rw [List.countP_eq_length_filter, List.filter_replicate]
    simp [isOkSlot]
  · rw [List.countP_eq_length_filter, List.filter_replicate]
    simp [isErrSlot]

/-- The invariant holds after every run. -/
theorem prun_inv {E T : Type} (tasks : List (Except E T)) (stop : Bool)
    (c : Nat) :
    ∀ (schedule : List Nat) (s : PState E T), PInv tasks s →
      PInv tasks (schedule.foldl (pstep tasks stop) s)
  | [], _, h => h
  | w :: rest, s, h => by
    rw [List.foldl_cons]
    exact prun_inv tasks stop c rest (pstep tasks stop s w)
      (pstep_inv tasks stop s w h)

/-- A worker pool in which every worker resolved contains no rejected
worker. -/
theorem firstDead_none_of_all_done {E : Type} :
    ∀ ws : List (WStatus E), ws.all WStatus.isDone = true →
      firstDead ws = none
  | [], _ => rfl
  | st :: rest, h => by
    rw [List.all_cons, Bool.and_eq_true] at h
    rcases st with _ | i | _ | e
    · exact absurd h.1 (by simp [WStatus.isDone])
    · exact absurd h.1 (by simp [WStatus.isDone])
    · exact firstDead_none_of_all_done rest h.2
    · exact absurd h.1 (by simp [WStatus.isDone])

/-- C8 counterexample: two concrete `parallel` invocations whose returned
batch result does not place every task's value or error in its slot.  With
`concurrency = 0`, `Math.min(0, 1) = 0` workers are spawned, `Promise.all
([])` resolves immediately, and the single task never runs — its slot is a
hole.  With `stopOnError = true` and `concurrency = 1`, task 0's failure
kills the only worker, `Promise.all` rejects, and `parallel` returns while
task 1 was never started — slot 1 is a hole, not task 1's value. -/
theorem parallel_slots_counterexample :
    (prun ([Except.ok 7] : List (Except Nat Nat)) false 0 []).results =
      [none] ∧
    parallelSettle (prun ([Except.ok 7] : List (Except Nat Nat)) false 0 []) =
      some (.ok ⟨[none], 0, 0⟩) ∧
    ([none] : List (Option (Except Nat Nat))) ≠ [some (Except.ok 7)] ∧
    (prun ([Except.error 9, Except.ok 1] : List (Except Nat Nat)) true 1
        [0, 0]).results = [some (Except.error 9), none] ∧
    parallelSettle (prun ([Except.error 9, Except.ok 1] :
        List (Except Nat Nat)) true 1 [0, 0]) =
      some (.ok ⟨[some (Except.error 9), none], 0, 1⟩) ∧
    (none : Option (Except Nat Nat)) ≠ some (Except.ok 1) :=
  ⟨by decide, by decide, by decide, by decide, by decide, by decide⟩

/-- C8 (amended): for every task list, concurrency ≥ 1 and
`stopOnError = false`, whenever the run completes (every worker resolved),
the returned batch result has exactly `N` slots and slot `i` holds exactly
task `i`'s outcome — its value or its thrown error — in original input
order, for every schedule (i.e. regardless of completion order or delay
variance); the `successful`/`failed` counts equal the number of value and
error slots, and the settled `Promise.all` hands the caller exactly this
result. -/
theorem parallel_order_invariance {E T : Type} (tasks : List (Except E T))
    (c : Nat) (schedule : List Nat) (hc : 1 ≤ c)
    (hdone : (prun tasks false c schedule).workers.all WStatus.isDone = true) :
    (prun tasks false c schedule).results = tasks.map some ∧
    (prun tasks false c schedule).results.length = tasks.length ∧
    (prun tasks false c schedule).successful = tasks.countP Except.isOk ∧
    (prun tasks false c schedule).failed =
      tasks.countP (fun t => !(Except.isOk t)) ∧
    parallelSettle (prun tasks false c schedule) =
      some (.ok ⟨tasks.map some, tasks.countP Except.isOk,
        tasks.countP (fun t => !(Except.isOk t))⟩) := by
  have hinv : PInv tasks (prun tasks false c schedule) := by
    rw [prun]
    exact prun_inv tasks false c schedule (pinit tasks c) (pinit_inv tasks c)
  have hwl : (prun tasks false c schedule).workers.length =
      min c tasks.length := by
    rw [prun]
    exact (prun_invariants tasks false c schedule (pinit tasks c)
      (by simp [pinit])
      (by simp [pinit, startedCount, finishedCount, runningCount,
        List.filter_replicate, WStatus.isRunning])).1
  have hnorun : ∀ w i : Nat,
      (prun tasks false c schedule).workers[w]? = some (.running i) → False := by
    intro w i hw
    have hd := List.all_eq_true.mp hdone _ (List.getElem?_mem hw)
    simp [WStatus.isDone] at hd
  have hidx : (prun tasks false c schedule).index = tasks.length := by
    rcases Nat.eq_zero_or_pos tasks.length with h0 | hpos
    · have := hinv.idx_le
      omega
    · have h0lt : 0 < (prun tasks false c schedule).workers.length := by
        rw [hwl]
        exact Nat.lt_min.mpr ⟨hc, hpos⟩
      rcases hst : (prun tasks false c schedule).workers[0]? with _ | st
      · rw [List.getElem?_eq_none_iff] at hst
        omega
      · have hd := List.all_eq_true.mp hdone _ (List.getElem?_mem hst)
        rcases st with _ | i | _ | e
        · simp [WStatus.isDone] at hd
        · simp [WStatus.isDone] at hd
        · exact hinv.done_full 0 hst
        · simp [WStatus.isDone] at hd
  have hres : (prun tasks false c schedule).results = tasks.map some := by
    apply List.ext_getElem?
    intro i
    by_cases hi : i < tasks.length
    · rcases hinv.claimed i (by omega) with ⟨x, hx⟩ | ⟨w'', hww⟩
      · have hti := hinv.filled i x hx
        rw [hx, List.getElem?_map, hti]
        rfl
      · exact absurd hww (fun hh => hnorun w'' i hh)
    · rw [List.getElem?_eq_none (by rw [hinv.rlen]; omega),
        List.getElem?_eq_none (by rw [List.length_map]; omega)]
  have hsc : (prun tasks false c schedule).successful =
      tasks.countP Except.isOk := by
    rw [hinv.succ_count, hres, List.countP_map]
    exact List.countP_congr (fun t _ => by cases t <;> rfl)
  have hfc : (prun tasks false c schedule).failed =
      tasks.countP (fun t => !(Except.isOk t)) := by
    rw [hinv.fail_count, hres, List.countP_map]
    exact List.countP_congr (fun t _ => by cases t <;> rfl)
  refine ⟨hres, by rw [hres, List.length_map], hsc, hfc, ?_⟩
  rw [parallelSettle, promiseAll,
    firstDead_none_of_all_done _ hdone, if_pos hdone]
  rw [show snapshot (prun tasks false c schedule) =
      ⟨(prun tasks false c schedule).results,
        (prun tasks false c schedule).successful,
        (prun tasks false c schedule).failed⟩ from rfl,
    hres, hsc, hfc]

/-- Witness: three tasks (the middle one failing) under concurrency 2 and a
completion order that interleaves the two workers; the batch result slots
are exactly the three outcomes in input order, with 2 successes and 1
failure. -/
theorem parallel_order_invariance_witness :
    (prun ([Except.ok 0, Except.error 5, Except.ok 2] :
        List (Except Nat Nat)) false 2 [0, 1, 0, 1, 0, 1, 0, 0]).results =
      ([Except.ok 0, Except.error 5, Except.ok 2] :
        List (Except Nat Nat)).map some ∧
    (prun ([Except.ok 0, Except.error 5, Except.ok 2] :
        List (Except Nat Nat)) false 2 [0, 1, 0, 1, 0, 1, 0, 0]).results.length =
      ([Except.ok 0, Except.error 5, Except.ok 2] :
        List (Except Nat Nat)).length ∧
    (prun ([Except.ok 0, Except.error 5, Except.ok 2] :
        List (Except Nat Nat)) false 2 [0, 1, 0, 1, 0, 1, 0, 0]).successful =
      ([Except.ok 0, Except.error 5, Except.ok 2] :
        List (Except Nat Nat)).countP Except.isOk ∧
    (prun ([Except.ok 0, Except.error 5, Except.ok 2] :
        List (Except Nat Nat)) false 2 [0, 1, 0, 1, 0, 1, 0, 0]).failed =
      ([Except.ok 0, Except.error 5, Except.ok 2] :
        List (Except Nat Nat)).countP (fun t => !(Except.isOk t)) ∧
    parallelSettle (prun ([Except.ok 0, Except.error 5, Except.ok 2] :
        List (Except Nat Nat)) false 2 [0, 1, 0, 1, 0, 1, 0, 0]) =
      some (.ok ⟨([Except.ok 0, Except.error 5, Except.ok 2] :
          List (Except Nat Nat)).map some,
        ([Except.ok 0, Except.error 5, Except.ok 2] :
          List (Except Nat Nat)).countP Except.isOk,
        ([Except.ok 0, Except.error 5, Except.ok 2] :
          List (Except Nat Nat)).countP (fun t => !(Except.isOk t))⟩) :=
  parallel_order_invariance _ 2 [0, 1, 0, 1, 0, 1, 0, 0] (by omega) (by decide)

end Cldash
